import Mathlib

/-!
Verification development for the kibadist-ui upgrade engine.

The definitions below are a shallow embedding of the core of the
repository: the semantic Tailwind conflict resolver
(`src/core/merge/semantic-tailwind.mjs`), the three-way merge wrapper
(`src/core/merge/merge3.mjs`), the line diff engine (`diff.ts`,
concatenated into `src/core/state.mjs` in this snapshot), and the CLI
state machine for `upgrade button` and `diff button` (`src/cli.ts`).

Texts are modelled as `String` (with `List Char` used internally, matching
JavaScript's sequence-of-code-units view of strings for the ASCII inputs
the engine manipulates).  JavaScript regular expressions are translated to
explicit scanners following the exact lazy/greedy backtracking semantics
of the concrete patterns in the source.  External collaborators (the
artifact generator, the `git merge-file` child process, interactive
prompts) are inputs to the embedded functions, since their behaviour is
not part of this repository.
-/

namespace KibadistUI

/-- JavaScript `\s` for the ASCII range (space, tab, newline, carriage
return, vertical tab, form feed); the texts this engine handles are ASCII. -/
def jsIsSpace (c : Char) : Bool :=
  c = ' ' || c = '\t' || c = '\n' || c = '\r' || c = '\x0b' || c = '\x0c'

/-- JavaScript `String.prototype.trimEnd`: drop trailing whitespace. -/
def trimEndJS (cs : List Char) : List Char :=
  (cs.reverse.dropWhile jsIsSpace).reverse

/-- JavaScript `s.split(sep)` for a single-character separator: `""` gives
`[""]`, a trailing separator yields a trailing `""`. -/
def splitOnChar (sep : Char) : List Char → List (List Char)
  | [] => [[]]
  | c :: rest =>
    if c = sep then [] :: splitOnChar sep rest
    else
      match splitOnChar sep rest with
      | [] => [[c]]
      | h :: t => (c :: h) :: t

/-- `text.split("\n")` as used by the diff engine and the resolver. -/
def splitLines (s : String) : List String :=
  (splitOnChar '\n' s.data).map String.mk

/-- Character class `[A-Za-z0-9_$]` of the `const`-assignment pattern. -/
def isNameChar (c : Char) : Bool :=
  c.isAlpha || c.isDigit || c = '_' || c = Char.ofNat 36

/-- Does a list occur as a contiguous subsequence?  This is JavaScript
`String.prototype.includes` on the underlying character lists. -/
def listContainsSeq (pat : List Char) : List Char → Bool
  | [] => pat.isEmpty
  | c :: rest => pat.isPrefixOf (c :: rest) || listContainsSeq pat rest

/-- The canonical opening conflict marker `<<<<<<<`. -/
def openMarker : List Char := "<<<<<<<".data

/-- The conflict separator as matched by the resolver regex: a line that
is exactly seven `=` characters (`\n=======\n` in the pattern). -/
def sepMarker : List Char := "\n=======\n".data

/-- Start of the closing marker as matched by the resolver regex
(`\n>>>>>>>`). -/
def closeMarkerStart : List Char := "\n>>>>>>>".data

/-- Split a list at the first occurrence of `sep`: returns the part
before and the part after, or `none` if `sep` does not occur. -/
def splitFirst (sep : List Char) : List Char → Option (List Char × List Char)
  | [] => if sep.isEmpty then some ([], []) else none
  | c :: rest =>
    if sep.isPrefixOf (c :: rest) then some ([], (c :: rest).drop sep.length)
    else
      match splitFirst sep rest with
      | some (pre, post) => some (c :: pre, post)
      | none => none

/-- Consume `[^\n]*\n`: the rest of the current line and its terminating
newline.  Fails when no newline remains. -/
def takeLine (cs : List Char) : Option (List Char × List Char) :=
  splitFirst ['\n'] cs

/-- Match the lazy group `([\s\S]*?)` followed by `\n>>>>>>>[^\n]*\n`:
find the first occurrence of `\n>>>>>>>` whose line is newline-terminated
and return the group contents together with the remainder after the
closing marker line.  (If the first occurrence of `\n>>>>>>>` is not
followed by a later newline then no occurrence is, so the whole match
fails, exactly as the backtracking regex does.) -/
def findClose : List Char → Option (List Char × List Char)
  | [] => none
  | c :: rest =>
    if closeMarkerStart.isPrefixOf (c :: rest) then
      match takeLine ((c :: rest).drop 8) with
      | some (_, after) => some ([], after)
      | none => none
    else
      match findClose rest with
      | some (b, after) => some (c :: b, after)
      | none => none

/-- One match of the resolver's conflict regex
`<<<<<<<[^\n]*\n([\s\S]*?)\n=======\n([\s\S]*?)\n>>>>>>>[^\n]*\n`:
`full` is the entire matched text, `a` and `b` the two capture groups and
`rest` the input following the match. -/
structure ConflictMatch where
  full : List Char
  a : List Char
  b : List Char
  rest : List Char

/-- Try to match the conflict regex at the start of `cs`.  The lazy
groups take the shortest text reaching `\n=======\n` resp. `\n>>>>>>>`;
as argued at `findClose`, no backtracking past the first viable separator
can succeed, so first occurrences are faithful to the regex engine. -/
def matchConflictAt (cs : List Char) : Option ConflictMatch :=
  if openMarker.isPrefixOf cs then
    match takeLine (cs.drop 7) with
    | none => none
    | some (_, cs1) =>
      match splitFirst sepMarker cs1 with
      | none => none
      | some (a, cs2) =>
        match findClose cs2 with
        | none => none
        | some (b, rest) => some ⟨cs.take (cs.length - rest.length), a, b, rest⟩
  else none

/-- Result of `parseConstAssignment`. -/
structure ParsedConstAssignment where
  indent : List Char
  name : List Char
  quote : Char
  value : List Char
deriving DecidableEq

/-- `parseConstAssignment` from `semantic-tailwind.mjs`: matches
`^(\s*)const\s+([A-Za-z0-9_$]+)\s*=\s*(["'`])([\s\S]*?)\3\s*;\s*$`.
The lazy value group extends to the first closing quote after which only
`\s*;\s*` remains (with backtracking over further quote characters). -/
def findValueEnd (q : Char) : List Char → Option (List Char)
  | [] => none
  | c :: rest =>
    if c = q && (match rest.dropWhile jsIsSpace with
      | ';' :: r2 => (r2.dropWhile jsIsSpace).isEmpty
      | _ => false) then
      some []
    else
      match findValueEnd q rest with
      | some v => some (c :: v)
      | none => none

def parseConstAssignment (line : List Char) : Option ParsedConstAssignment :=
  let indent := line.takeWhile jsIsSpace
  let r0 := line.dropWhile jsIsSpace
  if "const".data.isPrefixOf r0 then
    let r1 := r0.drop 5
    if (r1.takeWhile jsIsSpace).isEmpty then none
    else
      let r2 := r1.dropWhile jsIsSpace
      let nm := r2.takeWhile isNameChar
      if nm.isEmpty then none
      else
        match (r2.dropWhile isNameChar).dropWhile jsIsSpace with
        | '=' :: r5 =>
          match r5.dropWhile jsIsSpace with
          | q :: r7 =>
            if q = '"' || q = Char.ofNat 39 || q = Char.ofNat 96 then
              match findValueEnd q r7 with
              | some v => some ⟨indent, nm, q, v⟩
              | none => none
            else none
          | [] => none
        | _ => none
  else none

/-- `looksLikeTailwind`: the value contains one of `-`, `:`, `[`, `]`. -/
def looksLikeTailwind (v : List Char) : Bool :=
  v.any fun c => c = '-' || c = ':' || c = '[' || c = ']'

/-- `a.split(/\s+/).filter(Boolean)`: the maximal non-whitespace runs. -/
def splitWsAux : List Char → List Char → List (List Char)
  | [], acc => if acc.isEmpty then [] else [acc.reverse]
  | c :: rest, acc =>
    if jsIsSpace c then
      if acc.isEmpty then splitWsAux rest [] else acc.reverse :: splitWsAux rest []
    else splitWsAux rest (c :: acc)

def splitTokens (s : String) : List String :=
  (splitWsAux s.data []).map String.mk

/-- The incoming-side loop of `unionTokens`: append each token of `ts`
that is not yet in `seen`, extending `seen` as tokens are appended. -/
def collectNew (seen : List String) : List String → List String
  | [] => []
  | t :: ts =>
    if t ∈ seen then collectNew seen ts
    else t :: collectNew (seen ++ [t]) ts

/-- The ordered token union of `unionTokens`: all of the local side's
tokens (duplicates included), then the incoming tokens not already seen. -/
def unionTokensOut (a b : String) : List String :=
  splitTokens a ++ collectNew (splitTokens a) (splitTokens b)

/-- `unionTokens` from `semantic-tailwind.mjs`. -/
def unionTokens (a b : String) : String :=
  String.intercalate " " (unionTokensOut a b)

/-- The replacement callback of `resolveTailwindConstStringConflicts`
applied to one matched conflict block: either the resolved single line
(with `changed = true`) or the untouched full match. -/
def resolveBlock (m : ConflictMatch) : List Char × Bool :=
  let aTrim := trimEndJS m.a
  let bTrim := trimEndJS m.b
  if (splitOnChar '\n' aTrim).length ≠ 1 || (splitOnChar '\n' bTrim).length ≠ 1 then
    (m.full, false)
  else
    match parseConstAssignment aTrim, parseConstAssignment bTrim with
    | some pa, some pb =>
      if pa.name ≠ pb.name then (m.full, false)
      else if !(looksLikeTailwind pa.value || looksLikeTailwind pb.value) then (m.full, false)
      else
        (pa.indent ++ "const ".data ++ pa.name ++ " = ".data ++ [pa.quote]
          ++ (unionTokens (String.mk pa.value) (String.mk pb.value)).data
          ++ [pa.quote] ++ ";\n".data, true)
    | _, _ => (m.full, false)

/-- The global-replace scan of `text.replace(conflictRe, ...)`: walk the
text, replace each leftmost regex match via `resolveBlock`, resume after
the match.  `fuel` bounds the recursion; `length + 1` always suffices
since each step consumes at least one character. -/
def scanConflicts : Nat → List Char → List Char × Bool
  | 0, cs => (cs, false)
  | _ + 1, [] => ([], false)
  | n + 1, c :: cs =>
    match matchConflictAt (c :: cs) with
    | some m =>
      match resolveBlock m, scanConflicts n m.rest with
      | (rep, ch1), (tail, ch2) => (rep ++ tail, ch1 || ch2)
    | none =>
      match scanConflicts n cs with
      | (tail, ch) => (c :: tail, ch)

/-- Result record of the semantic resolver. -/
structure TailwindConflictResult where
  text : String
  changed : Bool
  stillHasConflicts : Bool
deriving DecidableEq

/-- `resolveTailwindConstStringConflicts` from `semantic-tailwind.mjs`:
resolve every conflict block that is a single-line `const`-string
assignment on both sides with the same name and a Tailwind-looking value,
by token union; `stillHasConflicts` is `out.includes("<<<<<<<")`. -/
def resolveTailwindConstStringConflicts (s : String) : TailwindConflictResult :=
  match scanConflicts (s.data.length + 1) s.data with
  | (out, changed) =>
    { text := String.mk out
      changed := changed
      stillHasConflicts := listContainsSeq openMarker out }

/-- A line that begins with the canonical opening marker (seven `<`). -/
def isOpenMarkerLine (l : String) : Bool :=
  openMarker.isPrefixOf l.data

set_option maxRecDepth 80000

/-- Canonical conflict markers per the exposed wire format: an opening
marker line, a separator line of exactly seven `=`, or a closing marker
line beginning with seven `>`. -/
def hasConflictMarkerLine (s : String) : Bool :=
  (splitLines s).any fun l =>
    isOpenMarkerLine l || l = "=======" || ">>>>>>>".data.isPrefixOf l.data

/-! ### The line diff engine (`diffLines`, `groupIntoHunks`) -/

inductive DiffLineType where
  | add
  | remove
  | context
deriving DecidableEq

/-- One line of a computed diff (`DiffLine` in `diff.ts`). -/
structure DiffLine where
  type : DiffLineType
  content : String
  lineNumber : Option Nat
deriving DecidableEq

/-- A contextual hunk (`DiffHunk` in `diff.ts`). -/
structure DiffHunk where
  startLine : Nat
  lines : List DiffLine
deriving DecidableEq

/-- The LCS dynamic-programming table of `computeLCS`:
`lcsLenAux o n fuel i j` is `dp[i][j]`, the LCS length of the first `i`
old lines and first `j` new lines.  `fuel` makes the recursion
structural; every recursive call reduces `i + j`, so `fuel = i + j`
always suffices. -/
def lcsLenAux (o n : List String) : Nat → Nat → Nat → Nat
  | 0, _, _ => 0
  | _ + 1, 0, _ => 0
  | _ + 1, _ + 1, 0 => 0
  | fuel + 1, i + 1, j + 1 =>
    if o.getD i "" = n.getD j "" then lcsLenAux o n fuel i j + 1
    else max (lcsLenAux o n fuel i (j + 1)) (lcsLenAux o n fuel (i + 1) j)

/-- `dp[i][j]` of `computeLCS`. -/
def lcsLen (o n : List String) (i j : Nat) : Nat :=
  lcsLenAux o n (i + j) i j

/-- The backtracking while loop of `computeLCS`, producing the matched
`(oldIndex, newIndex)` pairs in increasing order.  Each iteration
decrements `i`, `j` or both, so `fuel = i + j` always suffices. -/
def backtrackAux (o n : List String) : Nat → Nat → Nat → List (Nat × Nat)
  | 0, _, _ => []
  | _ + 1, 0, _ => []
  | _ + 1, _ + 1, 0 => []
  | fuel + 1, i + 1, j + 1 =>
    if o.getD i "" = n.getD j "" then backtrackAux o n fuel i j ++ [(i, j)]
    else if lcsLen o n i (j + 1) > lcsLen o n (i + 1) j then
      backtrackAux o n fuel i (j + 1)
    else backtrackAux o n fuel (i + 1) j

/-- `computeLCS` from `diff.ts`. -/
def computeLCS (o n : List String) : List (Nat × Nat) :=
  backtrackAux o n (o.length + n.length) o.length n.length

/-- The removed lines pushed for old indices `i ≤ idx < k`. -/
def mkRemoves (o : List String) (i k : Nat) : List DiffLine :=
  (List.range' i (k - i)).map fun idx =>
    ⟨DiffLineType.remove, o.getD idx "", some (idx + 1)⟩

/-- The added lines pushed for new indices `j ≤ idx < k`. -/
def mkAdds (n : List String) (j k : Nat) : List DiffLine :=
  (List.range' j (k - j)).map fun idx =>
    ⟨DiffLineType.add, n.getD idx "", some (idx + 1)⟩

/-- The main while loop of `diffLines` building the flat diff from the
LCS pairs: for each pair, flush removals and additions up to the pair,
then a context line; once the pairs are exhausted (or an index is out of
range) flush all remaining removals and additions. -/
def buildDiff (o n : List String) : List (Nat × Nat) → Nat → Nat → List DiffLine
  | [], i, j => mkRemoves o i o.length ++ mkAdds n j n.length
  | (li, lj) :: rest, i, j =>
    if i < o.length && j < n.length then
      mkRemoves o i li ++ mkAdds n j lj
        ++ [⟨DiffLineType.context, n.getD (max j lj) "", some (max j lj + 1)⟩]
        ++ buildDiff o n rest (max i li + 1) (max j lj + 1)
    else mkRemoves o i o.length ++ mkAdds n j n.length

/-- Indices of the non-context lines (`changeIndices` in
`groupIntoHunks`), accumulated from position `i`. -/
def changeIndicesAux : List DiffLine → Nat → List Nat
  | [], _ => []
  | d :: ds, i =>
    if d.type ≠ DiffLineType.context then i :: changeIndicesAux ds (i + 1)
    else changeIndicesAux ds (i + 1)

/-- One pushed hunk: `startLine` is
`diff[hunkStart].lineNumber ?? hunkStart + 1` and `lines` is
`diff.slice(hunkStart, hunkEnd + 1)`. -/
def mkHunk (diff : List DiffLine) (hs he : Nat) : DiffHunk :=
  { startLine := ((diff.getD hs ⟨DiffLineType.context, "", none⟩).lineNumber).getD (hs + 1)
    lines := (diff.drop hs).take (he + 1 - hs) }

/-- The window-merging loop of `groupIntoHunks` over the remaining change
indices, carrying the current window `[hs, he]`. -/
def hunksLoop (diff : List DiffLine) (k : Nat) : List Nat → Nat → Nat → List DiffHunk
  | [], hs, he => [mkHunk diff hs he]
  | c :: cs, hs, he =>
    if c - k ≤ he + 1 then hunksLoop diff k cs hs (min (diff.length - 1) (c + k))
    else mkHunk diff hs he :: hunksLoop diff k cs (c - k) (min (diff.length - 1) (c + k))

/-- `groupIntoHunks` from `diff.ts`. -/
def groupIntoHunks (diff : List DiffLine) (k : Nat) : List DiffHunk :=
  match changeIndicesAux diff 0 with
  | [] => []
  | c :: cs => hunksLoop diff k cs (c - k) (min (diff.length - 1) (c + k))

/-- `diffLines` from `diff.ts`: LCS alignment of the two line lists,
then contextual grouping. -/
def diffLines (oldText newText : String) (k : Nat) : List DiffHunk :=
  groupIntoHunks
    (buildDiff (splitLines oldText) (splitLines newText)
      (computeLCS (splitLines oldText) (splitLines newText)) 0 0)
    k

/-- `diffStats` from `diff.ts`: additions and deletions across hunks. -/
def diffStats (hunks : List DiffHunk) : Nat × Nat :=
  hunks.foldl
    (fun acc h =>
      h.lines.foldl
        (fun a d =>
          match d.type with
          | DiffLineType.add => (a.1 + 1, a.2)
          | DiffLineType.remove => (a.1, a.2 + 1)
          | DiffLineType.context => a)
        acc)
    (0, 0)

/-! ### The three-way merge wrapper (`merge3.mjs`)

`merge3` is not a self-contained text algorithm: it spawns the external
`git merge-file` binary on temporary files and post-processes that
process's stdout.  The embedding therefore takes the outcome of the
spawn (`SpawnResult`, mirroring Node's `spawnSync` result fields used by
the source) as an explicit input; the three text arguments are carried
to mirror the source signature but reach the external tool only through
the file system. -/

/-- The fields of Node's `spawnSync` result that `merge3` consults. -/
structure SpawnResult where
  error : Option String
  status : Int
  stdout : String
  stderr : String
deriving DecidableEq

/-- Per-artifact merge result (`MergeResult` in `types.ts`). -/
structure MergeResult where
  mergedText : String
  hasConflicts : Bool
deriving DecidableEq

/-- `merge3` from `merge3.mjs`: throw if the spawn errored or the tool
exited with status 2; otherwise take the tool's stdout, test it for the
`<<<<<<<` substring, and, when conflicted and the Tailwind semantic pass
is enabled, run the resolver.  `semanticTailwind` models
`semantic === "tailwind"`. -/
def merge3 (basePath localPath incomingContent : String) (semanticTailwind : Bool)
    (res : SpawnResult) : Except String MergeResult :=
  match res.error with
  | some e => Except.error ("Failed to run git merge-file (is git installed?): " ++ e)
  | none =>
    if res.status = 2 then
      Except.error ("git merge-file failed:\n" ++
        (if res.stderr = "" then res.stdout else res.stderr))
    else
      if listContainsSeq openMarker res.stdout.data && semanticTailwind then
        match resolveTailwindConstStringConflicts res.stdout with
        | r => Except.ok ⟨r.text, r.stillHasConflicts⟩
      else Except.ok ⟨res.stdout, listContainsSeq openMarker res.stdout.data⟩

/-! ### The CLI state machine (`cli.ts`)

Persisted state visible to `upgrade button` and `diff button`: the
`contract-ui.config.json` file, the `.contract-ui/state.json` file
(holding `installed.button`), the base-snapshot store keyed by version
and artifact basename, and the on-disk artifact files keyed by relative
path.  External collaborators are parameters: `versions` stands for
`listButtonVersions()`, `gen` for contract loading + IR derivation +
`generateButton` at a version (pure per the spec), `mergeFn` for one
`merge3` invocation (base content, local content, incoming content,
semantic flag), and interactive prompting is a boolean plus the chosen
version. -/

/-- `state.installed.button` (`InstalledRecord`). -/
structure InstalledRecord where
  version : String
  style : String
  outDir : String
deriving DecidableEq

/-- One generated artifact (`GeneratedFile` in `types.ts`). -/
structure GeneratedFile where
  relPath : String
  content : String
deriving DecidableEq

/-- The persisted world the CLI mutates.  `stateFile = none` means
`.contract-ui/state.json` does not exist; `some b` means it exists with
`installed.button = b`. -/
structure CliState where
  configExists : Bool
  stateFile : Option (Option InstalledRecord)
  snapshots : String → String → Option String
  disk : String → Option String

/-- `ensureInitFiles` from `state.ts`: create the config file and an
empty state file (`{ installed: {} }`) when missing; never touch
existing ones. -/
def ensureInitFiles (st : CliState) : CliState :=
  { st with
    configExists := true
    stateFile := some (match st.stateFile with
      | none => none
      | some b => b) }

/-- The installed-version record for button as `loadState` reads it: a
missing state file reads as `{ installed: {} }`. -/
def installedButton (st : CliState) : Option InstalledRecord :=
  match st.stateFile with
  | none => none
  | some b => b

/-- `path.basename`: the last `/`-separated segment. -/
def baseName (p : String) : String :=
  String.mk ((splitOnChar '/' p.data).getLastD [])

/-- Point update of the disk map. -/
def updDisk (f : String → Option String) (k v : String) : String → Option String :=
  fun x => if x = k then some v else f x

/-- Point update of the snapshot store. -/
def updSnap (f : String → String → Option String) (ver nm v : String) :
    String → String → Option String :=
  fun a b => if a = ver ∧ b = nm then some v else f a b

/-- How the per-artifact merge loop of `upgradeButton` ended. -/
inductive LoopExit where
  | missingLocal (relPath : String)
  | missingBase (relPath : String)
  | mergeCrashed (msg : String)
  | done
deriving DecidableEq

/-- The per-artifact loop of `upgradeButton` (`cli.ts:399-432`): for each
incoming file check the local file and the base snapshot at the current
version exist (fatal otherwise), merge, write the merged text to the
local path, and record the conflict flag.  Returns the state (only disk
writes), the conflict flags of the processed files in order, and how the
loop ended.  (`anyConflicts` in the source is the disjunction of the
recorded flags.) -/
def upgradeLoop (mergeFn : String → String → String → Bool → Except String MergeResult)
    (fromV style : String) :
    List GeneratedFile → CliState → List Bool → CliState × List Bool × LoopExit
  | [], st, flags => (st, flags, LoopExit.done)
  | f :: fs, st, flags =>
    match st.disk f.relPath with
    | none => (st, flags, LoopExit.missingLocal f.relPath)
    | some localContent =>
      match st.snapshots fromV (baseName f.relPath) with
      | none => (st, flags, LoopExit.missingBase f.relPath)
      | some baseContent =>
        match mergeFn baseContent localContent f.content
            (if style = "tailwind" then ".tsx".data.isSuffixOf f.relPath.data else false) with
        | Except.error e => (st, flags, LoopExit.mergeCrashed e)
        | Except.ok res =>
          upgradeLoop mergeFn fromV style fs
            { st with disk := updDisk st.disk f.relPath res.mergedText }
            (flags ++ [res.hasConflicts])

/-- Outcome of one `upgrade button` attempt. -/
inductive UpgradeOutcome where
  | notInstalled
  | missingToFlag
  | alreadyLatest
  | nothingToDo
  | contractNotFound (v : String)
  | dryRunPreview
  | missingLocal (relPath : String)
  | missingBase (relPath : String)
  | mergeCrashed (msg : String)
  | conflictsRemain
  | upgraded
deriving DecidableEq

/-- The snapshot writes of the successful-upgrade path
(`cli.ts:442-445`): a `BaseSnapshot` at the target version for every
incoming file. -/
def writeSnapshots (files : List GeneratedFile) (toV : String) (st : CliState) : CliState :=
  files.foldl
    (fun s f => { s with snapshots := updSnap s.snapshots toV (baseName f.relPath) f.content })
    st

/-- The body of `upgradeButton` after the target version is known
(`cli.ts:362-453`): no-op when already at the target, fatal when either
contract version is unknown (`loadButtonContract` throws), preview-only
under `--dry-run`, else run the merge loop; on a clean loop with no
conflict flags write all target-version snapshots and advance
`installed.button.version`, otherwise leave record and snapshots
untouched. -/
def upgradeCore (versions : List String) (gen : String → String → String → List GeneratedFile)
    (mergeFn : String → String → String → Bool → Except String MergeResult)
    (dryRun : Bool) (st : CliState) (inst : InstalledRecord) (toV : String) :
    CliState × List Bool × UpgradeOutcome :=
  if toV = inst.version then (st, [], UpgradeOutcome.nothingToDo)
  else if ¬ inst.version ∈ versions then (st, [], UpgradeOutcome.contractNotFound inst.version)
  else if ¬ toV ∈ versions then (st, [], UpgradeOutcome.contractNotFound toV)
  else if dryRun then (st, [], UpgradeOutcome.dryRunPreview)
  else
    match upgradeLoop mergeFn inst.version inst.style (gen toV inst.style inst.outDir) st [] with
    | (st1, flags, LoopExit.missingLocal p) => (st1, flags, UpgradeOutcome.missingLocal p)
    | (st1, flags, LoopExit.missingBase p) => (st1, flags, UpgradeOutcome.missingBase p)
    | (st1, flags, LoopExit.mergeCrashed m) => (st1, flags, UpgradeOutcome.mergeCrashed m)
    | (st1, flags, LoopExit.done) =>
      if flags.any id then (st1, flags, UpgradeOutcome.conflictsRemain)
      else
        ({ writeSnapshots (gen toV inst.style inst.outDir) toV st1 with
            stateFile := some (some { inst with version := toV }) },
          flags, UpgradeOutcome.upgraded)

/-- `upgradeButton` from `cli.ts` (lines 324-453): ensure init files,
load the installed record (fatal when absent), resolve the target
version from `--to`, the interactive prompt, or fail, then run
`upgradeCore`.  Returns the final persisted state, the per-artifact
conflict flags computed by the attempt, and the outcome. -/
def upgradeButton (versions : List String)
    (gen : String → String → String → List GeneratedFile)
    (mergeFn : String → String → String → Bool → Except String MergeResult)
    (interactive : Bool) (promptedVersion : String)
    (toArg : Option String) (dryRun : Bool) (st0 : CliState) :
    CliState × List Bool × UpgradeOutcome :=
  match installedButton (ensureInitFiles st0) with
  | none => (ensureInitFiles st0, [], UpgradeOutcome.notInstalled)
  | some inst =>
    match toArg with
    | some t => upgradeCore versions gen mergeFn dryRun (ensureInitFiles st0) inst t
    | none =>
      if interactive then
        if (versions.filter (fun v => v ≠ inst.version)).isEmpty then
          (ensureInitFiles st0, [], UpgradeOutcome.alreadyLatest)
        else upgradeCore versions gen mergeFn dryRun (ensureInitFiles st0) inst promptedVersion
      else (ensureInitFiles st0, [], UpgradeOutcome.missingToFlag)

/-- Outcome of one `diff button` invocation. -/
inductive DiffOutcome where
  | notInstalledNoFrom
  | alreadyLatest
  | sameVersion
  | unknownVersion (v : String)
  | report (entries : List (String × List DiffHunk)) (removed : List String)
deriving DecidableEq

/-- The body of `diffButton` once both versions are resolved
(`cli.ts:495-567`): no-op for equal versions, fatal for unknown ones,
else generate both artifact sets, run `diffLines` (context 3) per
matching artifact name and report artifacts absent from the target as
removals. -/
def diffCore (versions : List String) (gen : String → String → String → List GeneratedFile)
    (cfgStyle cfgOutDir : String) (st : CliState) (inst : Option InstalledRecord)
    (fromV toV : String) : CliState × DiffOutcome :=
  if fromV = toV then (st, DiffOutcome.sameVersion)
  else if ¬ fromV ∈ versions then (st, DiffOutcome.unknownVersion fromV)
  else if ¬ toV ∈ versions then (st, DiffOutcome.unknownVersion toV)
  else
    (st, DiffOutcome.report
      ((gen toV (match inst with | some i => i.style | none => cfgStyle)
          (match inst with | some i => i.outDir | none => cfgOutDir)).map fun tf =>
        (tf.relPath,
          diffLines
            (match (gen fromV (match inst with | some i => i.style | none => cfgStyle)
                (match inst with | some i => i.outDir | none => cfgOutDir)).find?
                (fun f => f.relPath == tf.relPath) with
              | some ff => ff.content
              | none => "")
            tf.content 3))
      (((gen fromV (match inst with | some i => i.style | none => cfgStyle)
          (match inst with | some i => i.outDir | none => cfgOutDir)).filter fun ff =>
        ((gen toV (match inst with | some i => i.style | none => cfgStyle)
            (match inst with | some i => i.outDir | none => cfgOutDir)).find?
          (fun f => f.relPath == ff.relPath)).isNone).map fun ff => ff.relPath))

/-- `diffButton` from `cli.ts` (lines 455-567): ensure init files, read
config and installed record, resolve `from` (flag, else installed
version, else fatal) and `to` (flag, else interactive prompt, else
latest version), then `diffCore`.  The only state change anywhere is
`ensureInitFiles`. -/
def diffButton (versions : List String)
    (gen : String → String → String → List GeneratedFile)
    (cfgStyle cfgOutDir : String)
    (interactive : Bool) (promptedVersion : String)
    (fromArg toArg : Option String) (st0 : CliState) : CliState × DiffOutcome :=
  match (match fromArg with
    | some f => some f
    | none => (installedButton (ensureInitFiles st0)).map (fun i => i.version)) with
  | none => (ensureInitFiles st0, DiffOutcome.notInstalledNoFrom)
  | some fromV =>
    match toArg with
    | some t =>
      diffCore versions gen cfgStyle cfgOutDir (ensureInitFiles st0)
        (installedButton (ensureInitFiles st0)) fromV t
    | none =>
      if interactive then
        if (versions.filter (fun v => v ≠ fromV)).isEmpty then
          (ensureInitFiles st0, DiffOutcome.alreadyLatest)
        else
          diffCore versions gen cfgStyle cfgOutDir (ensureInitFiles st0)
            (installedButton (ensureInitFiles st0)) fromV promptedVersion
      else
        diffCore versions gen cfgStyle cfgOutDir (ensureInitFiles st0)
          (installedButton (ensureInitFiles st0)) fromV (versions.getLastD "")

/-! ### Helper lemmas about the resolver -/

/-- `listContainsSeq` decides occurrence as a contiguous subsequence. -/
theorem listContainsSeq_iff (pat : List Char) :
    ∀ cs, listContainsSeq pat cs = true ↔ ∃ pre post, cs = pre ++ pat ++ post := by
  intro cs
  induction cs with
  | nil =>
    simp only [listContainsSeq, List.isEmpty_iff]
    constructor
    · rintro rfl; exact ⟨[], [], rfl⟩
    · rintro ⟨pre, post, h⟩
      rcases List.append_eq_nil.mp (List.append_eq_nil.mp h.symm).1 with ⟨-, h2⟩
      exact h2
  | cons c rest ih =>
    simp only [listContainsSeq, Bool.or_eq_true, List.isPrefixOf_iff_prefix, ih]
    constructor
    · rintro (⟨t, ht⟩ | ⟨pre, post, h⟩)
      · exact ⟨[], t, ht.symm⟩
      · exact ⟨c :: pre, post, by simp [h]⟩
    · rintro ⟨pre, post, h⟩
      match pre, h with
      | [], h => exact Or.inl ⟨post, by simpa using h.symm⟩
      | p :: pre, h =>
        rcases List.cons_eq_cons.mp h with ⟨rfl, h2⟩
        exact Or.inr ⟨pre, post, h2⟩

/-- When the text nowhere contains `<<<<<<<`, the global-replace scan is
the identity and reports no change. -/
theorem scanConflicts_of_not_contains :
    ∀ (n : Nat) (cs : List Char), listContainsSeq openMarker cs = false →
      scanConflicts n cs = (cs, false) := by
  intro n
  induction n with
  | zero => intro cs _; rfl
  | succ n ih =>
    intro cs h
    cases cs with
    | nil => rfl
    | cons c rest =>
      simp only [listContainsSeq, Bool.or_eq_false_iff] at h
      have hm : matchConflictAt (c :: rest) = none := by
        unfold matchConflictAt
        rw [h.1]
        rfl
      simp only [scanConflicts, hm, ih rest h.2]

/-- The multiplicity of each token appended by the incoming-side loop:
one exactly when the token occurs in the incoming side and is not already
seen, zero otherwise. -/
theorem count_collectNew (t : String) :
    ∀ (ts seen : List String),
      List.count t (collectNew seen ts) = if t ∈ ts ∧ t ∉ seen then 1 else 0 := by
  intro ts
  induction ts with
  | nil => intro seen; simp [collectNew]
  | cons hd ts ih =>
    intro seen
    by_cases hmem : hd ∈ seen
    · rw [collectNew, if_pos hmem, ih]
      by_cases ht : t = hd
      · subst ht; simp [hmem]
      · simp [List.mem_cons, ht]
    · rw [collectNew, if_neg hmem, List.count_cons, ih]
      by_cases ht : t = hd
      · subst ht; simp [hmem]
      · simp [List.mem_cons, List.mem_append, ht, Ne.symm ht]

/-! ### Helper lemmas about the diff engine -/

/-- Backtracking an LCS table of a list against itself from the diagonal
stays on the diagonal: every line matches itself.  (Whenever the lines at
the two cursors are equal the loop takes the diagonal branch without
consulting the table, so one unit of fuel per step suffices.) -/
theorem backtrackLCS_self (l : List String) :
    ∀ (i fuel : Nat), i ≤ fuel →
      backtrackAux l l fuel i i = (List.range i).map (fun t => (t, t)) := by
  intro i
  induction i with
  | zero =>
    intro fuel _
    cases fuel <;> rfl
  | succ i ih =>
    intro fuel hfuel
    obtain ⟨f, rfl⟩ : ∃ f, fuel = f + 1 := ⟨fuel - 1, by omega⟩
    simp only [backtrackAux, if_pos rfl, if_true, eq_self_iff_true,
      ih f (by omega), List.range_succ, List.map_append, List.map_cons, List.map_nil]

/-- Building the diff of a list against itself from a diagonal LCS tail
yields pure context lines. -/
theorem buildDiff_self (l : List String) :
    ∀ (m j : Nat), j + m = l.length →
      buildDiff l l ((List.range' j m).map fun t => (t, t)) j j =
        (List.range' j m).map fun t =>
          (⟨DiffLineType.context, l.getD t "", some (t + 1)⟩ : DiffLine) := by
  intro m
  induction m with
  | zero =>
    intro j hj
    have h0 : l.length - j = 0 := by omega
    simp [buildDiff, mkRemoves, mkAdds, h0]
  | succ m ih =>
    intro j hj
    have hjlt : j < l.length := by omega
    rw [List.range'_succ]
    simp only [List.map_cons, buildDiff]
    rw [if_pos (by simp [hjlt])]
    have hjj : l.length ≥ j := by omega
    simp [mkRemoves, mkAdds, Nat.max_self, ih (j + 1) (by omega)]

/-- `changeIndicesAux` of an all-context diff is empty. -/
theorem changeIndicesAux_nil_of_context :
    ∀ (ds : List DiffLine), (∀ d ∈ ds, d.type = DiffLineType.context) →
      ∀ i, changeIndicesAux ds i = [] := by
  intro ds
  induction ds with
  | nil => intro _ i; rfl
  | cons d ds ih =>
    intro hall i
    have hd := hall d (List.mem_cons_self d ds)
    simp only [changeIndicesAux, hd, ne_eq, not_true_eq_false, if_false]
    exact ih (fun x hx => hall x (List.mem_cons_of_mem d hx)) (i + 1)

/-- Every line emitted by `buildDiff` carries a line number. -/
theorem buildDiff_lineNumber (o n : List String) :
    ∀ (lcs : List (Nat × Nat)) (i j : Nat) (d : DiffLine),
      d ∈ buildDiff o n lcs i j → d.lineNumber.isSome := by
  intro lcs
  induction lcs with
  | nil =>
    intro i j d hd
    unfold buildDiff at hd
    rcases List.mem_append.mp hd with h | h <;>
      · obtain ⟨idx, -, rfl⟩ := List.mem_map.mp h
        rfl
  | cons p rest ih =>
    obtain ⟨li, lj⟩ := p
    intro i j d hd
    unfold buildDiff at hd
    split at hd
    · rcases List.mem_append.mp hd with h | h
      · rcases List.mem_append.mp h with h | h
        · rcases List.mem_append.mp h with h | h <;>
            first
            | (obtain ⟨idx, -, rfl⟩ := List.mem_map.mp h; rfl)
        · rcases List.mem_singleton.mp h with rfl
          rfl
      · exact ih _ _ d h
    · rcases List.mem_append.mp hd with h | h <;>
        · obtain ⟨idx, -, rfl⟩ := List.mem_map.mp h
          rfl

/-- Bounds for the change indices collected from position `i`. -/
theorem changeIndicesAux_mem_bounds :
    ∀ (ds : List DiffLine) (i c : Nat), c ∈ changeIndicesAux ds i →
      i ≤ c ∧ c < i + ds.length := by
  intro ds
  induction ds with
  | nil => intro i c h; simp [changeIndicesAux] at h
  | cons d ds ih =>
    intro i c h
    unfold changeIndicesAux at h
    split at h
    · rcases List.mem_cons.mp h with rfl | h'
      · exact ⟨Nat.le_refl _, by simp⟩
      · have := ih (i + 1) c h'
        simp only [List.length_cons]
        omega
    · have := ih (i + 1) c h
      simp only [List.length_cons]
      omega

/-- The change indices are collected in weakly increasing order. -/
theorem changeIndicesAux_sorted :
    ∀ (ds : List DiffLine) (i : Nat),
      List.Pairwise (· ≤ ·) (changeIndicesAux ds i) := by
  intro ds
  induction ds with
  | nil => intro i; simp [changeIndicesAux]
  | cons d ds ih =>
    intro i
    unfold changeIndicesAux
    split
    · exact List.Pairwise.cons
        (fun c hc => Nat.le_of_succ_le (changeIndicesAux_mem_bounds ds (i + 1) c hc).1)
        (ih (i + 1))
    · exact ih (i + 1)

/-- Every hunk produced by the window loop is `mkHunk` at a window whose
start is a valid index not exceeding its end. -/
theorem hunksLoop_shape (diff : List DiffLine) (k : Nat) :
    ∀ (cs : List Nat) (hs he : Nat), hs ≤ he → he < diff.length →
      (∀ c ∈ cs, hs ≤ c ∧ c < diff.length) → List.Pairwise (· ≤ ·) cs →
      ∀ h ∈ hunksLoop diff k cs hs he,
        ∃ hs' he', hs' ≤ he' ∧ he' < diff.length ∧ h = mkHunk diff hs' he' := by
  intro cs
  induction cs with
  | nil =>
    intro hs he h1 h2 _ _ h hm
    rw [hunksLoop] at hm
    rcases List.mem_singleton.mp hm with rfl
    exact ⟨hs, he, h1, h2, rfl⟩
  | cons c cs ih =>
    intro hs he h1 h2 hb hp h hm
    obtain ⟨hc1, hc2⟩ := hb c (List.mem_cons_self c cs)
    obtain ⟨hhead, htail⟩ := List.pairwise_cons.mp hp
    have hmin1 : min (diff.length - 1) (c + k) ≤ diff.length - 1 := Nat.min_le_left _ _
    have hmin2 : min (diff.length - 1) (c + k) < diff.length := by omega
    rw [hunksLoop] at hm
    split at hm
    · exact ih hs (min (diff.length - 1) (c + k))
        (Nat.le_min.mpr ⟨by omega, by omega⟩) hmin2
        (fun c' hc' => (hb c' (List.mem_cons_of_mem c hc')))
        htail h hm
    · rcases List.mem_cons.mp hm with rfl | hm'
      · exact ⟨hs, he, h1, h2, rfl⟩
      · exact ih (c - k) (min (diff.length - 1) (c + k))
          (Nat.le_min.mpr ⟨by omega, by omega⟩) hmin2
          (fun c' hc' => ⟨by
              have := hhead c' hc'
              omega,
            (hb c' (List.mem_cons_of_mem c hc')).2⟩)
          htail h hm'

/-- Every hunk produced by `groupIntoHunks` is `mkHunk` at a valid
window. -/
theorem groupIntoHunks_shape (diff : List DiffLine) (k : Nat) :
    ∀ h ∈ groupIntoHunks diff k,
      ∃ hs he, hs ≤ he ∧ he < diff.length ∧ h = mkHunk diff hs he := by
  intro h hm
  unfold groupIntoHunks at hm
  cases hci : changeIndicesAux diff 0 with
  | nil => rw [hci] at hm; simp at hm
  | cons c cs =>
    rw [hci] at hm
    have hcb : ∀ x ∈ c :: cs, x < diff.length := by
      intro x hx
      have := changeIndicesAux_mem_bounds diff 0 x (hci ▸ hx)
      omega
    have hp : List.Pairwise (· ≤ ·) (c :: cs) := hci ▸ changeIndicesAux_sorted diff 0
    have hc2 := hcb c (List.mem_cons_self c cs)
    obtain ⟨hhead, htail⟩ := List.pairwise_cons.mp hp
    have hmin1 : min (diff.length - 1) (c + k) ≤ diff.length - 1 := Nat.min_le_left _ _
    exact hunksLoop_shape diff k cs (c - k) (min (diff.length - 1) (c + k))
      (Nat.le_min.mpr ⟨by omega, by omega⟩) (by omega)
      (fun c' hc' => ⟨by
          have := hhead c' hc'
          omega,
        hcb c' (List.mem_cons_of_mem c hc')⟩)
      htail h hm

/-- The head of a pushed hunk is the diff line at its window start, and
`startLine` is that line's number (with the positional fallback). -/
theorem mkHunk_head (diff : List DiffLine) (hs he : Nat)
    (h1 : hs ≤ he) (h2 : hs < diff.length) :
    ∃ d, d ∈ diff ∧ (mkHunk diff hs he).lines.head? = some d ∧
      (mkHunk diff hs he).startLine = d.lineNumber.getD (hs + 1) := by
  refine ⟨diff[hs], List.getElem_mem h2, ?_, ?_⟩
  · show ((diff.drop hs).take (he + 1 - hs)).head? = some diff[hs]
    rw [List.drop_eq_getElem_cons h2]
    obtain ⟨q, hq⟩ : ∃ q, he + 1 - hs = q + 1 := ⟨he - hs, by omega⟩
    rw [hq]
    rfl
  · show ((diff.getD hs ⟨DiffLineType.context, "", none⟩).lineNumber).getD (hs + 1) = _
    rw [List.getD_eq_getElem?_getD, List.getElem?_eq_getElem h2]
    rfl

/-! ### Claim theorems for the semantic resolver -/

/-- C4: Scenario A.  The conflict block whose sides are single-line
`const base = "..."` assignments with Tailwind token lists resolves to a
single non-conflicting line whose value holds the tokens `inline-flex`,
`items-center`, `rounded-md`, `transition-colors` in first-seen order
(local tokens first, unseen incoming tokens appended), with
`changed = true` and `stillHasConflicts = false`. -/
theorem scenarioA_resolves :
    resolveTailwindConstStringConflicts
        "<<<<<<< LOCAL\n  const base = \"inline-flex items-center rounded-md\";\n=======\n  const base = \"inline-flex items-center transition-colors\";\n>>>>>>> INCOMING\n" =
      ⟨"  const base = \"inline-flex items-center rounded-md transition-colors\";\n", true, false⟩ ∧
    splitTokens "inline-flex items-center rounded-md transition-colors" =
      ["inline-flex", "items-center", "rounded-md", "transition-colors"] := by
  constructor
  · decide
  · decide

/-- C9: Scenario B.  A conflict block whose sides assign unquoted numeric
values (`const foo = 123;` vs `const foo = 456;`) is left untouched: the
output equals the input, `changed = false`, `stillHasConflicts = true`. -/
theorem scenarioB_untouched :
    resolveTailwindConstStringConflicts
        "<<<<<<< LOCAL\nconst foo = 123;\n=======\nconst foo = 456;\n>>>>>>> INCOMING\n" =
      ⟨"<<<<<<< LOCAL\nconst foo = 123;\n=======\nconst foo = 456;\n>>>>>>> INCOMING\n",
        false, true⟩ := by
  decide

/-- C3 counterexample: the source computes `stillHasConflicts` as
`out.includes("<<<<<<<")`, a substring test.  On the input
`"x <<<<<<< y\n"` the flag is `true` although no line of the (unchanged)
output begins with the canonical seven-`<` opening marker, refuting the
claimed "iff a line beginning with seven `<` remains". -/
theorem stillFlag_line_counterexample :
    (resolveTailwindConstStringConflicts "x <<<<<<< y\n").stillHasConflicts = true ∧
    (splitLines (resolveTailwindConstStringConflicts "x <<<<<<< y\n").text).all
      (fun l => !(isOpenMarkerLine l)) = true := by
  constructor
  · decide
  · decide

/-- C3 (amended): `stillHasConflicts` is `true` iff the seven-character
sequence `<<<<<<<` occurs anywhere in the output text (as a substring,
not necessarily at the start of a line). -/
theorem stillFlag_iff_substring (s : String) :
    (resolveTailwindConstStringConflicts s).stillHasConflicts = true ↔
    ∃ pre post, (resolveTailwindConstStringConflicts s).text.data = pre ++ openMarker ++ post := by
  unfold resolveTailwindConstStringConflicts
  cases h : scanConflicts (s.data.length + 1) s.data with
  | mk out changed => exact listContainsSeq_iff openMarker out

/-- C8 counterexample: the input `"a <<<<<<< b\n"` contains no canonical
conflict-marker line at all, yet the resolver reports
`stillHasConflicts = true` (its substring test sees the mid-line
`<<<<<<<`), refuting the claimed `stillHasConflicts = false` for
marker-free texts.  (Text and `changed` do behave as claimed here.) -/
theorem markerFree_counterexample :
    hasConflictMarkerLine "a <<<<<<< b\n" = false ∧
    resolveTailwindConstStringConflicts "a <<<<<<< b\n" =
      ⟨"a <<<<<<< b\n", false, true⟩ := by
  constructor
  · decide
  · decide

/-- C8 (amended): for every input text that nowhere contains the
substring `<<<<<<<`, the resolver returns the identical text with
`changed = false` and `stillHasConflicts = false`. -/
theorem resolver_identity_no_marker (s : String)
    (h : listContainsSeq openMarker s.data = false) :
    resolveTailwindConstStringConflicts s = ⟨s, false, false⟩ := by
  unfold resolveTailwindConstStringConflicts
  rw [scanConflicts_of_not_contains _ _ h]
  simp only [h]

/-- Witness for `resolver_identity_no_marker` at the marker-free text
`"hello\nworld\n"`. -/
theorem resolver_identity_no_marker_witness :
    resolveTailwindConstStringConflicts "hello\nworld\n" =
      ⟨"hello\nworld\n", false, false⟩ :=
  resolver_identity_no_marker "hello\nworld\n" (by decide)

/-- C10: in `unionTokens`, the local side's tokens are all kept verbatim
(as the prefix of the result, duplicates included) and an incoming token
contributes exactly one extra occurrence when it occurs on the incoming
side and not on the local side, and none otherwise — so the result holds
a token twice exactly when the local side did. -/
theorem unionTokens_dedup_incoming_only (a b t : String) :
    (unionTokensOut a b).take (splitTokens a).length = splitTokens a ∧
    List.count t (unionTokensOut a b) =
      List.count t (splitTokens a) +
        (if t ∈ splitTokens b ∧ t ∉ splitTokens a then 1 else 0) := by
  constructor
  · exact List.take_left _ _
  · unfold unionTokensOut
    rw [List.count_append, count_collectNew]

/-! ### Claim theorems for the diff engine -/

/-- C5: diffing a text against itself yields no hunks, for every text
and every context size. -/
theorem diff_self_empty (T : String) (k : Nat) : diffLines T T k = [] := by
  unfold diffLines
  have h1 : computeLCS (splitLines T) (splitLines T) =
      (List.range' 0 (splitLines T).length).map fun t => (t, t) := by
    unfold computeLCS
    rw [backtrackLCS_self _ _ _ (by omega), List.range_eq_range']
  rw [h1, buildDiff_self (splitLines T) (splitLines T).length 0 (by omega)]
  unfold groupIntoHunks
  rw [changeIndicesAux_nil_of_context _ ?_ 0]
  intro d hd
  obtain ⟨t, -, rfl⟩ := List.mem_map.mp hd
  rfl

/-- C6 counterexample for `diffLines "a\nr" "p\na" 0`: the flat diff is
`[add "p" (line 1), context "a" (line 2), remove "r" (line 2)]`, so the
second hunk consists only of the removal of `"r"` — a line that does not
occur in the new text and whose flat-diff index is 2 (0-based), making
the claim's positional fallback `3`.  The code instead emits
`startLine = 2`, the removal's 1-based position in the OLD text, because
removed lines do carry a line number (their old-text position).  This
refutes "startLine is the 1-based position in the new text, falling back
to the positional index when the first line lacks a line number". -/
theorem hunk_startLine_counterexample :
    diffLines "a\nr" "p\na" 0 =
      [⟨1, [⟨DiffLineType.add, "p", some 1⟩]⟩,
       ⟨2, [⟨DiffLineType.remove, "r", some 2⟩]⟩] ∧
    buildDiff (splitLines "a\nr") (splitLines "p\na")
        (computeLCS (splitLines "a\nr") (splitLines "p\na")) 0 0 =
      [⟨DiffLineType.add, "p", some 1⟩,
       ⟨DiffLineType.context, "a", some 2⟩,
       ⟨DiffLineType.remove, "r", some 2⟩] ∧
    (splitLines "p\na").contains "r" = false := by
  refine ⟨?_, ?_, ?_⟩
  · decide
  · decide
  · decide

/-- C6 (amended): each emitted hunk is nonempty and its `startLine` is
the line number recorded on its first emitted line; every emitted line
carries a line number (adds and contexts their new-text position,
removals their old-text position), so the positional fallback is never
exercised. -/
theorem hunk_startLine_is_first_lineNumber (oldT newT : String) (k : Nat)
    (h : DiffHunk) (hmem : h ∈ diffLines oldT newT k) :
    ∃ d m, h.lines.head? = some d ∧ d.lineNumber = some m ∧ h.startLine = m := by
  unfold diffLines at hmem
  obtain ⟨hs, he, h1, h2, rfl⟩ := groupIntoHunks_shape _ _ h hmem
  obtain ⟨d, hdmem, hhead, hstart⟩ := mkHunk_head _ hs he h1 (Nat.lt_of_le_of_lt h1 h2)
  have hsome := buildDiff_lineNumber _ _ _ _ _ d hdmem
  obtain ⟨m, hm⟩ := Option.isSome_iff_exists.mp hsome
  exact ⟨d, m, hhead, hm, by rw [hstart, hm]; rfl⟩

/-- Witness for `hunk_startLine_is_first_lineNumber` at
`diffLines "a" "b" 0`, whose single hunk is
`⟨1, [remove "a" (line 1), add "b" (line 1)]⟩`. -/
theorem hunk_startLine_is_first_lineNumber_witness :
    ∃ d m,
      (DiffHunk.mk 1 [⟨DiffLineType.remove, "a", some 1⟩,
        ⟨DiffLineType.add, "b", some 1⟩]).lines.head? = some d ∧
      d.lineNumber = some m ∧
      (DiffHunk.mk 1 [⟨DiffLineType.remove, "a", some 1⟩,
        ⟨DiffLineType.add, "b", some 1⟩]).startLine = m :=
  hunk_startLine_is_first_lineNumber "a" "b" 0
    ⟨1, [⟨DiffLineType.remove, "a", some 1⟩, ⟨DiffLineType.add, "b", some 1⟩]⟩
    (by decide)

/-! ### Claim theorems for the merge wrapper -/

/-- C2 counterexample: `merge3` is not a pure native function of the
three input texts.  With identical text arguments its result differs
depending on the external tool's stdout (second and third conjunct), its
error branch is reachable when spawning `git` fails (first conjunct),
and the tool's exit status 2 also throws (fourth conjunct) — refuting
"no side effects, no failure conditions, no external merge tool". -/
theorem merge3_external_counterexample :
    merge3 "base" "local" "incoming" false ⟨some "spawn git ENOENT", 0, "", ""⟩ =
      Except.error "Failed to run git merge-file (is git installed?): spawn git ENOENT" ∧
    merge3 "base" "local" "incoming" false ⟨none, 0, "A", ""⟩ = Except.ok ⟨"A", false⟩ ∧
    merge3 "base" "local" "incoming" false ⟨none, 0, "B", ""⟩ = Except.ok ⟨"B", false⟩ ∧
    merge3 "base" "local" "incoming" false ⟨none, 2, "", "boom"⟩ =
      Except.error "git merge-file failed:\nboom" :=
  ⟨rfl, rfl, rfl, rfl⟩

/-- C2 (amended): `merge3` delegates the merge to the external
`git merge-file` process: it throws when the spawn errors and when the
tool exits with status 2; otherwise its result is determined by the
tool's stdout — returned as-is (with the `<<<<<<<` substring test as the
conflict flag) unless conflicted with the Tailwind pass enabled, in
which case the native semantic resolver post-processes it. -/
theorem merge3_spec (bp lp inc : String) (sem : Bool) (r : SpawnResult) :
    (∀ e, r.error = some e →
      merge3 bp lp inc sem r =
        Except.error ("Failed to run git merge-file (is git installed?): " ++ e)) ∧
    (r.error = none → r.status = 2 →
      merge3 bp lp inc sem r =
        Except.error ("git merge-file failed:\n" ++
          (if r.stderr = "" then r.stdout else r.stderr))) ∧
    (r.error = none → r.status ≠ 2 →
      listContainsSeq openMarker r.stdout.data = false →
      merge3 bp lp inc sem r = Except.ok ⟨r.stdout, false⟩) ∧
    (r.error = none → r.status ≠ 2 → sem = false →
      merge3 bp lp inc sem r =
        Except.ok ⟨r.stdout, listContainsSeq openMarker r.stdout.data⟩) ∧
    (r.error = none → r.status ≠ 2 →
      listContainsSeq openMarker r.stdout.data = true → sem = true →
      merge3 bp lp inc sem r =
        Except.ok ⟨(resolveTailwindConstStringConflicts r.stdout).text,
          (resolveTailwindConstStringConflicts r.stdout).stillHasConflicts⟩) := by
  refine ⟨?_, ?_, ?_, ?_, ?_⟩
  · intro e he
    simp [merge3, he]
  · intro he h2
    simp [merge3, he, h2]
  · intro he h2 hmark
    simp [merge3, he, h2, hmark]
  · intro he h2 hsem
    simp [merge3, he, h2, hsem]
  · intro he h2 hmark hsem
    simp [merge3, he, h2, hmark, hsem]

/-- Witness for `merge3_spec`: the spawn-error branch at a concrete
spawn result. -/
theorem merge3_spec_witness :
    merge3 "b" "l" "inc" true ⟨some "ECHILD", 0, "", ""⟩ =
      Except.error ("Failed to run git merge-file (is git installed?): " ++ "ECHILD") :=
  (merge3_spec "b" "l" "inc" true ⟨some "ECHILD", 0, "", ""⟩).1 "ECHILD" rfl

/-! ### Helper lemmas about the CLI state machine -/

/-- `ensureInitFiles` does not change the installed-button record as
`loadState` reads it. -/
theorem installedButton_ensureInitFiles (st : CliState) :
    installedButton (ensureInitFiles st) = installedButton st := by
  cases h : st.stateFile <;> simp [installedButton, ensureInitFiles, h]

/-- `installedButton` depends only on the state file. -/
theorem installedButton_congr {st1 st2 : CliState}
    (h : st1.stateFile = st2.stateFile) : installedButton st1 = installedButton st2 := by
  unfold installedButton
  rw [h]

/-- The merge loop only writes artifact files: the state file and the
snapshot store are untouched no matter how it ends. -/
theorem upgradeLoop_preserves
    (mergeFn : String → String → String → Bool → Except String MergeResult)
    (fromV style : String) :
    ∀ (fs : List GeneratedFile) (st : CliState) (flags : List Bool),
      (upgradeLoop mergeFn fromV style fs st flags).1.stateFile = st.stateFile ∧
      (upgradeLoop mergeFn fromV style fs st flags).1.snapshots = st.snapshots := by
  intro fs
  induction fs with
  | nil => intro st flags; exact ⟨rfl, rfl⟩
  | cons f fs ih =>
    intro st flags
    unfold upgradeLoop
    cases hdisk : st.disk f.relPath with
    | none => exact ⟨rfl, rfl⟩
    | some localContent =>
      dsimp only
      cases hsnap : st.snapshots fromV (baseName f.relPath) with
      | none => exact ⟨rfl, rfl⟩
      | some baseContent =>
        dsimp only
        cases hm : mergeFn baseContent localContent f.content
            (if style = "tailwind" then ".tsx".data.isSuffixOf f.relPath.data else false) with
        | error e => exact ⟨rfl, rfl⟩
        | ok res => exact ih _ _

/-- Commit rule at the `upgradeCore` level: when some processed artifact
reported conflicts, the state file and the snapshot store come out
unchanged. -/
theorem upgradeCore_commit (versions : List String)
    (gen : String → String → String → List GeneratedFile)
    (mergeFn : String → String → String → Bool → Except String MergeResult)
    (dryRun : Bool) (st : CliState) (inst : InstalledRecord) (toV : String)
    (h : true ∈ (upgradeCore versions gen mergeFn dryRun st inst toV).2.1) :
    (upgradeCore versions gen mergeFn dryRun st inst toV).1.stateFile = st.stateFile ∧
    (upgradeCore versions gen mergeFn dryRun st inst toV).1.snapshots = st.snapshots := by
  revert h
  unfold upgradeCore
  split
  · intro _; exact ⟨rfl, rfl⟩
  · split
    · intro _; exact ⟨rfl, rfl⟩
    · split
      · intro _; exact ⟨rfl, rfl⟩
      · split
        · intro _; exact ⟨rfl, rfl⟩
        · cases hloop : upgradeLoop mergeFn inst.version inst.style
              (gen toV inst.style inst.outDir) st [] with
          | mk st1 rest =>
            obtain ⟨flags, ex⟩ := rest
            have hpres := upgradeLoop_preserves mergeFn inst.version inst.style
              (gen toV inst.style inst.outDir) st []
            rw [hloop] at hpres
            cases ex with
            | missingLocal p => intro _; exact hpres
            | missingBase p => intro _; exact hpres
            | mergeCrashed m => intro _; exact hpres
            | done =>
              dsimp only
              by_cases hany : flags.any id = true
              · rw [if_pos hany]
                intro _
                exact hpres
              · rw [if_neg hany]
                intro hmem
                exfalso
                have hany' : flags.any id = false := by
                  simpa using hany
                have := List.any_eq_false.mp hany' true hmem
                simp at this

/-- C1: the upgrade commit rule.  For every upgrade attempt in which at
least one processed artifact's merge result still has conflicts after
semantic resolution (`true` among the attempt's conflict flags), the
installed-version record after the attempt equals the record before it,
and the base-snapshot store is unchanged — in particular no snapshot at
the target version is written for any artifact. -/
theorem upgrade_commit_rule (versions : List String)
    (gen : String → String → String → List GeneratedFile)
    (mergeFn : String → String → String → Bool → Except String MergeResult)
    (interactive : Bool) (promptedVersion : String)
    (toArg : Option String) (dryRun : Bool) (st0 : CliState)
    (h : true ∈
      (upgradeButton versions gen mergeFn interactive promptedVersion toArg dryRun st0).2.1) :
    installedButton
        (upgradeButton versions gen mergeFn interactive promptedVersion toArg dryRun st0).1 =
      installedButton st0 ∧
    (upgradeButton versions gen mergeFn interactive promptedVersion toArg dryRun st0).1.snapshots =
      st0.snapshots := by
  revert h
  unfold upgradeButton
  cases hinst : installedButton (ensureInitFiles st0) with
  | none =>
    intro h
    simp at h
  | some inst =>
    dsimp only
    cases toArg with
    | some t =>
      intro h
      have hc := upgradeCore_commit versions gen mergeFn dryRun (ensureInitFiles st0) inst t h
      exact ⟨(installedButton_congr hc.1).trans (installedButton_ensureInitFiles st0), hc.2⟩
    | none =>
      dsimp only
      split
      · split
        · intro h
          simp at h
        · intro h
          have hc := upgradeCore_commit versions gen mergeFn dryRun (ensureInitFiles st0) inst
            promptedVersion h
          exact ⟨(installedButton_congr hc.1).trans (installedButton_ensureInitFiles st0), hc.2⟩
      · intro h
        simp at h

/-- Witness for `upgrade_commit_rule`: a concrete single-artifact attempt
whose merge reports conflicts; the installed record and the snapshot
store are unchanged. -/
theorem upgrade_commit_rule_witness :
    installedButton
        (upgradeButton ["1.0.0", "1.1.0"]
          (fun _ _ _ => [⟨"ui/button/Button.tsx", "inc"⟩])
          (fun _ _ _ _ => Except.ok ⟨"merged with markers", true⟩)
          false "" (some "1.1.0") false
          ⟨true, some (some ⟨"1.0.0", "tailwind", "ui"⟩),
            (fun v nm => if v = "1.0.0" then
              (if nm = "Button.tsx" then some "base text" else none) else none),
            (fun p => if p = "ui/button/Button.tsx" then some "local text" else none)⟩).1 =
      installedButton
        ⟨true, some (some ⟨"1.0.0", "tailwind", "ui"⟩),
          (fun v nm => if v = "1.0.0" then
            (if nm = "Button.tsx" then some "base text" else none) else none),
          (fun p => if p = "ui/button/Button.tsx" then some "local text" else none)⟩ ∧
    (upgradeButton ["1.0.0", "1.1.0"]
        (fun _ _ _ => [⟨"ui/button/Button.tsx", "inc"⟩])
        (fun _ _ _ _ => Except.ok ⟨"merged with markers", true⟩)
        false "" (some "1.1.0") false
        ⟨true, some (some ⟨"1.0.0", "tailwind", "ui"⟩),
          (fun v nm => if v = "1.0.0" then
            (if nm = "Button.tsx" then some "base text" else none) else none),
          (fun p => if p = "ui/button/Button.tsx" then some "local text" else none)⟩).1.snapshots =
      (fun v nm => if v = "1.0.0" then
        (if nm = "Button.tsx" then some "base text" else none) else none) :=
  upgrade_commit_rule ["1.0.0", "1.1.0"]
    (fun _ _ _ => [⟨"ui/button/Button.tsx", "inc"⟩])
    (fun _ _ _ _ => Except.ok ⟨"merged with markers", true⟩)
    false "" (some "1.1.0") false
    ⟨true, some (some ⟨"1.0.0", "tailwind", "ui"⟩),
      (fun v nm => if v = "1.0.0" then
        (if nm = "Button.tsx" then some "base text" else none) else none),
      (fun p => if p = "ui/button/Button.tsx" then some "local text" else none)⟩
    (by decide)

/-! ### Claim theorem for the diff operation -/

/-- `diffCore` returns the state it is given. -/
theorem diffCore_state (versions : List String)
    (gen : String → String → String → List GeneratedFile)
    (cfgStyle cfgOutDir : String) (st : CliState) (inst : Option InstalledRecord)
    (fromV toV : String) :
    (diffCore versions gen cfgStyle cfgOutDir st inst fromV toV).1 = st := by
  unfold diffCore
  split
  · rfl
  · split
    · rfl
    · split
      · rfl
      · rfl

/-- C7: `diff button` is read-only with respect to the version state
machine: for every pair of versions and every outcome, it modifies
neither the persisted installed record, nor any base snapshot, nor any
on-disk artifact.  (Its only write is `ensureInitFiles` materialising a
missing empty state file, which holds no installed record.) -/
theorem diff_button_readonly (versions : List String)
    (gen : String → String → String → List GeneratedFile)
    (cfgStyle cfgOutDir : String) (interactive : Bool) (promptedVersion : String)
    (fromArg toArg : Option String) (st0 : CliState) :
    installedButton
        (diffButton versions gen cfgStyle cfgOutDir interactive promptedVersion
          fromArg toArg st0).1 =
      installedButton st0 ∧
    (diffButton versions gen cfgStyle cfgOutDir interactive promptedVersion
        fromArg toArg st0).1.snapshots = st0.snapshots ∧
    (diffButton versions gen cfgStyle cfgOutDir interactive promptedVersion
        fromArg toArg st0).1.disk = st0.disk := by
  have hstate :
      (diffButton versions gen cfgStyle cfgOutDir interactive promptedVersion
        fromArg toArg st0).1 = ensureInitFiles st0 := by
    unfold diffButton
    cases fromArg with
    | some f =>
      dsimp only
      cases toArg with
      | some t => exact diffCore_state ..
      | none =>
        dsimp only
        split
        · split
          · rfl
          · exact diffCore_state ..
        · exact diffCore_state ..
    | none =>
      dsimp only
      cases hv : installedButton (ensureInitFiles st0) with
      | none => rfl
      | some i =>
        dsimp only [Option.map]
        cases toArg with
        | some t => exact diffCore_state ..
        | none =>
          dsimp only
          split
          · split
            · rfl
            · exact diffCore_state ..
          · exact diffCore_state ..
  rw [hstate]
  exact ⟨installedButton_ensureInitFiles st0, rfl, rfl⟩

end KibadistUI
